import Mathlib

/-!
# Verification of the crucible-rt marshaling/ABI layer

Shallow embedding of the `crt-marshal` and `crt-marshal-host` crates.
Machine integers are modelled as `Nat` (unsigned) and `Int` (signed) with
explicit range bounds; guest linear memory is a `List Nat` of bytes;
fallible operations return `Option` or `Except String` carrying the
error messages of the source.
-/

set_option autoImplicit false

-- ===== Byte-level helpers (little-endian integer representation) ===== --

/-- Little-endian byte encoding of `v` into `n` bytes (`v.to_le` byte view). -/
def natToLEBytes : Nat → Nat → List Nat
  | 0, _ => []
  | n + 1, v => (v % 256) :: natToLEBytes n (v / 256)

/-- Little-endian byte decoding (`from_le` on a byte view). -/
def natFromLEBytes : List Nat → Nat
  | [] => 0
  | b :: rest => b + 256 * natFromLEBytes rest

/-- Two's-complement representative of a signed value in `w` bits. -/
def intToNatMod (w : Nat) (v : Int) : Nat :=
  (v % ((2 : Int) ^ w)).toNat

/-- Signed reinterpretation of a `w`-bit unsigned value. -/
def natToIntSigned (w : Nat) (n : Nat) : Int :=
  if n < 2 ^ (w - 1) then (n : Int) else (n : Int) - 2 ^ w

-- ===== MarshaledTy: primitive encode/decode (marshal/src/lib.rs) ===== --

/-- `u8: MarshaledTy` with `Prim = u32`: `into_prim` is `me.into()`. -/
def u8_into_prim (v : Nat) : Nat := v

/-- `u8::from_prim` is `u8::try_from(me).ok()`: rejects values above 255. -/
def u8_from_prim (p : Nat) : Option Nat :=
  if p < 2 ^ 8 then some p else none

/-- `u16: MarshaledTy` with `Prim = u32`. -/
def u16_into_prim (v : Nat) : Nat := v

/-- `u16::from_prim` via `u16::try_from(u32)`. -/
def u16_from_prim (p : Nat) : Option Nat :=
  if p < 2 ^ 16 then some p else none

/-- `u32: MarshaledTy` with `Prim = u32`. -/
def u32_into_prim (v : Nat) : Nat := v

/-- `u32::from_prim` via `u32::try_from(u32)`, which always succeeds. -/
def u32_from_prim (p : Nat) : Option Nat := some p

/-- `u64: MarshaledTy` with `Prim = u64`. -/
def u64_into_prim (v : Nat) : Nat := v

/-- `u64::from_prim` via `u64::try_from(u64)`, which always succeeds. -/
def u64_from_prim (p : Nat) : Option Nat := some p

/-- `i8: MarshaledTy` with `Prim = i32`: `me.into()` sign-extends, preserving
the mathematical value. -/
def i8_into_prim (v : Int) : Int := v

/-- `i8::from_prim` via `i8::try_from(i32)`: rejects values outside
`[-128, 127]`. -/
def i8_from_prim (p : Int) : Option Int :=
  if -(2 ^ 7) ≤ p ∧ p < 2 ^ 7 then some p else none

/-- `i16: MarshaledTy` with `Prim = i32`. -/
def i16_into_prim (v : Int) : Int := v

/-- `i16::from_prim` via `i16::try_from(i32)`. -/
def i16_from_prim (p : Int) : Option Int :=
  if -(2 ^ 15) ≤ p ∧ p < 2 ^ 15 then some p else none

/-- `i32: MarshaledTy` with `Prim = i32`. -/
def i32_into_prim (v : Int) : Int := v

/-- `i32::from_prim` via `i32::try_from(i32)`, which always succeeds. -/
def i32_from_prim (p : Int) : Option Int := some p

/-- `i64: MarshaledTy` with `Prim = i64`. -/
def i64_into_prim (v : Int) : Int := v

/-- `i64::from_prim` via `i64::try_from(i64)`, which always succeeds. -/
def i64_from_prim (p : Int) : Option Int := some p

/-- `bool: MarshaledTy` with `Prim = u32`: `me as u32`. -/
def bool_into_prim (b : Bool) : Nat := if b then 1 else 0

/-- `bool::from_prim`: `0 => false`, `1 => true`, anything else rejected. -/
def bool_from_prim (p : Nat) : Option Bool :=
  match p with
  | 0 => some false
  | 1 => some true
  | _ => none

/-- Rust `char::try_from(u32)` acceptance condition: a Unicode scalar value. -/
def isUnicodeScalar (n : Nat) : Bool :=
  n < 0xD800 || (0xE000 ≤ n && n ≤ 0x10FFFF)

/-- `char: MarshaledTy` with `Prim = u32`: `me.into()` is the scalar value. -/
def char_into_prim (c : Nat) : Nat := c

/-- `char::from_prim` via `char::try_from(u32)`. -/
def char_from_prim (p : Nat) : Option Nat :=
  if isUnicodeScalar p then some p else none

-- ===== Little-endian wrapper types (define_le! in marshal/src/lib.rs) ===== --
-- A wrapper value is modelled by its stored byte representation.

/-- `LeU16::new`: store `value.to_le()` (2 little-endian bytes). -/
def LeU16_new (v : Nat) : List Nat := natToLEBytes 2 v

/-- `LeU16::get`: `u16::from_le(self.0)`. -/
def LeU16_get (b : List Nat) : Nat := natFromLEBytes b

/-- `MarshaledTy for LeU16`: `into_prim` is `u16::into_prim(me.get())`. -/
def LeU16_into_prim (b : List Nat) : Nat := u16_into_prim (LeU16_get b)

/-- `MarshaledTy for LeU16`: `from_prim` is `u16::from_prim(me).map(Self::new)`. -/
def LeU16_from_prim (p : Nat) : Option (List Nat) :=
  (u16_from_prim p).map LeU16_new

/-- `LeU32::new`. -/
def LeU32_new (v : Nat) : List Nat := natToLEBytes 4 v

/-- `LeU32::get`. -/
def LeU32_get (b : List Nat) : Nat := natFromLEBytes b

/-- `MarshaledTy for LeU32`. -/
def LeU32_into_prim (b : List Nat) : Nat := u32_into_prim (LeU32_get b)

/-- `MarshaledTy for LeU32`. -/
def LeU32_from_prim (p : Nat) : Option (List Nat) :=
  (u32_from_prim p).map LeU32_new

/-- `LeU64::new`. -/
def LeU64_new (v : Nat) : List Nat := natToLEBytes 8 v

/-- `LeU64::get`. -/
def LeU64_get (b : List Nat) : Nat := natFromLEBytes b

/-- `MarshaledTy for LeU64`. -/
def LeU64_into_prim (b : List Nat) : Nat := u64_into_prim (LeU64_get b)

/-- `MarshaledTy for LeU64`. -/
def LeU64_from_prim (p : Nat) : Option (List Nat) :=
  (u64_from_prim p).map LeU64_new

/-- `LeI16::new`: bytes of the 16-bit two's-complement representative. -/
def LeI16_new (v : Int) : List Nat := natToLEBytes 2 (intToNatMod 16 v)

/-- `LeI16::get`: signed reinterpretation of the stored bytes. -/
def LeI16_get (b : List Nat) : Int := natToIntSigned 16 (natFromLEBytes b)

/-- `MarshaledTy for LeI16`. -/
def LeI16_into_prim (b : List Nat) : Int := i16_into_prim (LeI16_get b)

/-- `MarshaledTy for LeI16`. -/
def LeI16_from_prim (p : Int) : Option (List Nat) :=
  (i16_from_prim p).map LeI16_new

/-- `LeI32::new`. -/
def LeI32_new (v : Int) : List Nat := natToLEBytes 4 (intToNatMod 32 v)

/-- `LeI32::get`. -/
def LeI32_get (b : List Nat) : Int := natToIntSigned 32 (natFromLEBytes b)

/-- `MarshaledTy for LeI32`. -/
def LeI32_into_prim (b : List Nat) : Int := i32_into_prim (LeI32_get b)

/-- `MarshaledTy for LeI32`. -/
def LeI32_from_prim (p : Int) : Option (List Nat) :=
  (i32_from_prim p).map LeI32_new

/-- `LeI64::new`. -/
def LeI64_new (v : Int) : List Nat := natToLEBytes 8 (intToNatMod 64 v)

/-- `LeI64::get`. -/
def LeI64_get (b : List Nat) : Int := natToIntSigned 64 (natFromLEBytes b)

/-- `MarshaledTy for LeI64`. -/
def LeI64_into_prim (b : List Nat) : Int := i64_into_prim (LeI64_get b)

/-- `MarshaledTy for LeI64`. -/
def LeI64_from_prim (p : Int) : Option (List Nat) :=
  (i64_from_prim p).map LeI64_new

-- ===== Guest address types (marshal/src/lib.rs) ===== --

/-- `WasmSlice<T>`: a guest base address plus element count (both u32). -/
structure WasmSliceV where
  base : Nat
  len : Nat
deriving DecidableEq

/-- `MarshaledTy for WasmSlice`: `bytemuck::cast(WasmSliceRaw(base, len))`
packs the two u32 fields into one u64 (little-endian host layout). -/
def WasmSlice_into_prim (s : WasmSliceV) : Nat :=
  s.base + 2 ^ 32 * s.len

/-- `MarshaledTy for WasmSlice`: `from_prim` splits the u64 back into the two
u32 fields and always succeeds. -/
def WasmSlice_from_prim (p : Nat) : Option WasmSliceV :=
  some ⟨p % 2 ^ 32, p / 2 ^ 32⟩

/-- `WasmStr`: a transparent wrapper around `WasmSlice<u8>`. -/
structure WasmStrV where
  s : WasmSliceV
deriving DecidableEq

/-- `MarshaledTy for WasmStr`: `into_prim` delegates to the inner slice. -/
def WasmStr_into_prim (w : WasmStrV) : Nat := WasmSlice_into_prim w.s

/-- `MarshaledTy for WasmStr`: `Some(WasmStr(WasmSlice::from_prim(me).unwrap()))`;
the `none` branch models the panic of the `.unwrap()` in the source. -/
def WasmStr_from_prim (p : Nat) : Option WasmStrV :=
  match WasmSlice_from_prim p with
  | some s => some ⟨s⟩
  | none => none

-- ===== Memory accessor: MemoryRead (marshal-host/src/lib.rs) ===== --

/-- Mirrors Rust `slice.get(base..)`: `Some` iff `base <= slice.len()`. -/
def sliceGetFrom (s : List Nat) (base : Nat) : Option (List Nat) :=
  if base ≤ s.length then some (s.drop base) else none

/-- Mirrors Rust `slice.get(..len)`: `Some` iff `len <= slice.len()`. -/
def sliceGetTo (s : List Nat) (len : Nat) : Option (List Nat) :=
  if len ≤ s.length then some (s.take len) else none

/-- `MemoryRead::load_range`: `self.as_slice().get(base..).and_then(|s| s.get(..len))`. -/
def load_range (mem : List Nat) (base len : Nat) : Option (List Nat) :=
  (sliceGetFrom mem base).bind (fun s => sliceGetTo s len)

-- ===== MarshaledTyList (impl_marshaled_res_ty in marshal/src/lib.rs) ===== --
-- The macro generates, for every arity 0..12, a `from_prims` that decodes
-- the components left to right with the `?` operator, and an `into_prims`
-- that encodes every component in order.  An arity-n tuple is modelled as
-- the length-n list of its components; `from_prims` receives the list of
-- per-component decode results (`from_prim` applied to each primitive).

/-- `MarshaledTyList::from_prims`:
`Some((A::from_prim(a)?, B::from_prim(b)?, ...))` — left to right, returning
`None` at the first failing component. -/
def from_prims {α : Type} : List (Option α) → Option (List α)
  | [] => some []
  | d :: rest =>
    match d with
    | none => none
    | some v => (from_prims rest).map (fun vs => v :: vs)

/-- The number of component decodes the generated `from_prims` performs:
the `?` operator stops at the first `None`. -/
def decode_attempts {α : Type} : List (Option α) → Nat
  | [] => 0
  | d :: rest =>
    match d with
    | none => 1
    | some _ => 1 + decode_attempts rest

/-- `MarshaledTyList::into_prims`: encode every component, in order; total,
with arity 0 producing the empty tuple. -/
def into_prims {α π : Type} (enc : α → π) (vals : List α) : List π :=
  vals.map enc

/-- Index of the first failing component, if any (not computed anywhere in
the source; used to state what `from_prims` does not report). -/
def firstFailIdx {α : Type} : List (Option α) → Option Nat
  | [] => none
  | none :: _ => some 0
  | some _ :: rest => (firstFailIdx rest).map (fun i => i + 1)

-- ===== Host-Call Adapter: wrap_host (marshal-host/src/lib.rs) ===== --

/-- `HostSideMarshaledFunc::wrap_host`: the generated closure decodes each
received primitive with `from_prim(..).context("failed to parse argument")?`
(left to right, early return — the same short-circuit as `from_prims`),
then invokes the wrapped function `self` and maps its `anyhow::Result`
through `into_prims`.  `decoded` holds the per-argument decode results,
`f` the wrapped native function (which may fail), `enc` the component
encoder for the result tuple.  The `Bool` records whether `f` was invoked. -/
def wrap_host {α β γ : Type} (decoded : List (Option α))
    (f : List α → Except String (List β)) (enc : β → γ) :
    Except String (List γ) × Bool :=
  match from_prims decoded with
  | none => (Except.error "failed to parse argument", false)
  | some args =>
    match f args with
    | Except.error e => (Except.error e, true)
    | Except.ok ret => (Except.ok (into_prims enc ret), true)

-- ===== Dynamic object protocol (marshal-host/src/lib.rs) ===== --

/-- Modelled from the spec: the `WasmDynamic` handle type is declared outside
src/; per the spec, a `DynamicObject` is `{ data: Pointer<()>, meta:
Pointer<VTable> }` — the source accesses the two fields as `self.0.base`
(the data offset) and `self.0.meta`. -/
structure WasmDynamicV where
  base : Nat
  meta : Nat
deriving DecidableEq

/-- Modelled from the spec: the vtable layout `{ dtor: FuncTableIndex,
needs_drop: u32 }`, two consecutive little-endian u32 fields; the struct
declaration is outside src/, while `run_dtor` below reads exactly these two
fields. -/
structure DtorVtable where
  dtor : Nat
  needs_drop : Nat
deriving DecidableEq

/-- `load_struct::<VTable>(meta)`: a bounds-checked `load_range` of the
8-byte struct followed by the parse of its two little-endian u32 fields. -/
def load_dtor_vtable (mem : List Nat) (meta : Nat) : Option DtorVtable :=
  match load_range mem meta 8 with
  | none => none
  | some bytes =>
    some ⟨natFromLEBytes (bytes.take 4), natFromLEBytes ((bytes.drop 4).take 4)⟩

/-- `WasmDynamicExt::run_dtor`: load the vtable from `obj.meta`; if
`needs_drop != 0`, resolve `dtor` through the context's function table and
invoke it with `(obj.base, obj.meta)` as arguments, discarding its unit
return.  The function table and its typed entries are abstracted as a
partial resolution map; the second component of the result is the list of
guest calls performed, each recorded as (table index, argument pair). -/
def run_dtor (mem : List Nat)
    (table : Nat → Option ((Nat × Nat) → Except String Unit))
    (obj : WasmDynamicV) : Except String Unit × List (Nat × (Nat × Nat)) :=
  match load_dtor_vtable mem obj.meta with
  | none => (Except.error "failed to read memory range", [])
  | some vt =>
    if vt.needs_drop ≠ 0 then
      match table vt.dtor with
      | none => (Except.error "failed to resolve table entry", [])
      | some f =>
        match f (obj.base, obj.meta) with
        | Except.error e => (Except.error e, [(vt.dtor, (obj.base, obj.meta))])
        | Except.ok _ => (Except.ok (), [(vt.dtor, (obj.base, obj.meta))])
    else (Except.ok (), [])

-- ===== Checked u32 arithmetic (Rust checked_mul / checked_add) ===== --

/-- `u32::checked_mul`: `None` iff the product does not fit in 32 bits. -/
def u32_checked_mul (a b : Nat) : Option Nat :=
  if a * b ≤ 2 ^ 32 - 1 then some (a * b) else none

/-- `u32::checked_add`: `None` iff the sum does not fit in 32 bits. -/
def u32_checked_add (a b : Nat) : Option Nat :=
  if a + b ≤ 2 ^ 32 - 1 then some (a + b) else none

-- ===== Typed slice loading (marshal-host/src/lib.rs) ===== --

/-- Recursion core of `chunkBytes`; the fuel argument only bounds the
number of produced chunks (one byte of input per chunk suffices) and makes
the recursion structural. -/
def chunkBytesGo (esz : Nat) : Nat → List Nat → List (List Nat)
  | 0, _ => []
  | fuel + 1, bytes =>
    if esz = 0 ∨ bytes = [] then []
    else bytes.take esz :: chunkBytesGo esz fuel (bytes.drop esz)

/-- `bytemuck::try_cast_slice` on an exact multiple of the element size:
split the byte range into consecutive `esz`-byte element representations. -/
def chunkBytes (esz : Nat) (bytes : List Nat) : List (List Nat) :=
  chunkBytesGo esz bytes.length bytes

/-- `MemoryRead::load_slice_raw`: the byte length is
`len.checked_mul(size_of_32::<T>()).context("slice is too big")?`, the range
is fetched with the bounds-checked `load_range`, and the bytes are parsed
into elements; `dec` decodes one element from its `esz` bytes. -/
def load_slice_raw {α : Type} (mem : List Nat) (base len esz : Nat)
    (dec : List Nat → α) : Except String (List α) :=
  match u32_checked_mul len esz with
  | none => Except.error "slice is too big"
  | some byteLen =>
    match load_range mem base byteLen with
    | none => Except.error "failed to read memory range"
    | some bytes => Except.ok ((chunkBytes esz bytes).map dec)

-- ===== Memory writing (marshal-host/src/lib.rs MemoryWrite) ===== --

/-- `MemoryWrite::write_range_mut`: `u32::try_from(data.len())` must succeed,
the target range is bounds-checked with `load_range_mut`, then the data is
copied over it (`copy_from_slice`), leaving the rest of memory unchanged. -/
def write_range_mut (mem : List Nat) (base : Nat) (data : List Nat) :
    Option (List Nat) :=
  if data.length ≤ 2 ^ 32 - 1 ∧ base + data.length ≤ mem.length then
    some (mem.take base ++ data ++ mem.drop (base + data.length))
  else none

/-- `MemoryWrite::write_slice` loop body: write each element's byte
representation with `write_struct` at the current cursor, then advance the
cursor with `checked_add(size_of)`; the mutated memory is threaded through
and returned together with the result (the element count on success). -/
def write_slice_go (mem : List Nat) (offset esz : Nat)
    (encs : List (List Nat)) (count : Nat) :
    Except String Nat × List Nat :=
  match encs with
  | [] => (Except.ok count, mem)
  | b :: rest =>
    match write_range_mut mem offset b with
    | none => (Except.error "failed to read memory range", mem)
    | some mem2 =>
      match u32_checked_add offset esz with
      | none => (Except.error "wrote too many elements into memory", mem2)
      | some off2 => write_slice_go mem2 off2 esz rest (count + 1)

/-- `MemoryWrite::write_slice`: start at the base address with count 0. -/
def write_slice (mem : List Nat) (base esz : Nat) (encs : List (List Nat)) :
    Except String Nat × List Nat :=
  write_slice_go mem base esz encs 0

-- ===== Allocator bridge (marshal-host/src/lib.rs ContextMemoryExt) ===== --

/-- `ContextMemoryExt::alloc_slice`: `u32::try_from(values.len())`, then
`size_of_32::<T>().checked_mul(len).context("slice is too big")?` (failing
before the allocator runs), then the guest allocation call, then
`write_slice` of every element, returning `WasmSlice { base, len }`.
The guest allocator is abstracted as a function returning the base address;
the claim considers the case where it leaves the relevant memory unchanged
("the same, un-grown memory").  The `Bool` records whether the allocator
was invoked. -/
def alloc_slice {α : Type} (mem : List Nat)
    (allocFn : Nat → Nat → Except String Nat) (esz align : Nat)
    (enc : α → List Nat) (values : List α) :
    Except String (WasmSliceV × List Nat) × Bool :=
  if values.length ≤ 2 ^ 32 - 1 then
    match u32_checked_mul esz values.length with
    | none => (Except.error "slice is too big", false)
    | some size =>
      match allocFn size align with
      | Except.error e => (Except.error e, true)
      | Except.ok base =>
        match write_slice mem base esz (values.map enc) with
        | (Except.error e, _) => (Except.error e, true)
        | (Except.ok _, mem2) =>
          (Except.ok (⟨base, values.length⟩, mem2), true)
  else (Except.error "too many elements in slice", false)

-- ===== Theorems ===== --

theorem natToLEBytes_length (n v : Nat) : (natToLEBytes n v).length = n := by
  induction n generalizing v with
  | zero => rfl
  | succ n ih => simp [natToLEBytes, ih]

theorem natFromLEBytes_natToLEBytes (n v : Nat) (h : v < 256 ^ n) :
    natFromLEBytes (natToLEBytes n v) = v := by
  induction n generalizing v with
  | zero =>
    simp [natToLEBytes, natFromLEBytes]
    omega
  | succ n ih =>
    simp only [natToLEBytes, natFromLEBytes]
    rw [ih (v / 256)]
    · omega
    · have hpow : 256 ^ (n + 1) = 256 ^ n * 256 := by ring
      rw [hpow] at h
      omega

theorem load_range_isSome (mem : List Nat) (base len : Nat) :
    (load_range mem base len).isSome ↔ base + len ≤ mem.length := by
  unfold load_range sliceGetFrom sliceGetTo
  by_cases hb : base ≤ mem.length
  · simp [hb, List.length_drop]
    omega
  · simp [hb]
    omega

theorem load_range_eq_some (mem : List Nat) (base len : Nat)
    (h : base + len ≤ mem.length) :
    load_range mem base len = some ((mem.drop base).take len) := by
  unfold load_range sliceGetFrom sliceGetTo
  have hb : base ≤ mem.length := by omega
  have hl : len ≤ (mem.drop base).length := by
    simp [List.length_drop]; omega
  simp [hb, hl]
  omega

/-- C1 counterexample: on a buffer of length `2^32` (possible for a host byte
slice), `load_range (2^32 - 1) 1` succeeds even though `base + len = 2^32`
overflows 32 bits, contradicting the claimed equivalence for arbitrary `L`. -/
theorem c1_load_range_overflow_cex :
    (load_range (List.replicate (2 ^ 32) 0) (2 ^ 32 - 1) 1).isSome
    ∧ ¬ ((2 ^ 32 - 1) + 1 < 2 ^ 32) := by
  constructor
  · rw [load_range_isSome, List.length_replicate]
    omega
  · omega

/-- C1 (amended): for a memory of length `L < 2^32`, `load_range base len`
succeeds, returning the byte range, iff `base + len ≤ L` (and then
`base + len` also fits in 32 bits); in particular it fails for
`base = L, len = 1` and succeeds for `base = 0, len = L`. -/
theorem c1_load_range_bounds (mem : List Nat) (base len : Nat)
    (hb : base < 2 ^ 32) (hl : len < 2 ^ 32) (hm : mem.length < 2 ^ 32) :
    ((load_range mem base len).isSome ↔
      base + len ≤ mem.length ∧ base + len < 2 ^ 32)
    ∧ load_range mem mem.length 1 = none
    ∧ (load_range mem 0 mem.length).isSome := by
  refine ⟨?_, ?_, ?_⟩
  · rw [load_range_isSome]
    omega
  · have h : ¬ (load_range mem mem.length 1).isSome := by
      rw [load_range_isSome]
      omega
    exact Option.not_isSome_iff_eq_none.mp h
  · rw [load_range_isSome]
    omega

/-- C1 witness: concrete instance of the amended bounds theorem. -/
theorem c1_load_range_bounds_witness :
    (((load_range [7, 7, 7] 1 2).isSome ↔
      1 + 2 ≤ ([7, 7, 7] : List Nat).length ∧ 1 + 2 < 2 ^ 32)
    ∧ load_range [7, 7, 7] ([7, 7, 7] : List Nat).length 1 = none
    ∧ (load_range [7, 7, 7] 0 ([7, 7, 7] : List Nat).length).isSome) :=
  c1_load_range_bounds [7, 7, 7] 1 2 (by norm_num) (by norm_num) (by norm_num)

theorem intToNatMod_lt_16 (v : Int) : intToNatMod 16 v < 2 ^ 16 := by
  unfold intToNatMod
  norm_num
  omega

theorem intToNatMod_lt_32 (v : Int) : intToNatMod 32 v < 2 ^ 32 := by
  unfold intToNatMod
  norm_num
  omega

theorem intToNatMod_lt_64 (v : Int) : intToNatMod 64 v < 2 ^ 64 := by
  unfold intToNatMod
  norm_num
  omega

theorem natToIntSigned_intToNatMod_16 (v : Int)
    (h1 : -(2 ^ 15) ≤ v) (h2 : v < 2 ^ 15) :
    natToIntSigned 16 (intToNatMod 16 v) = v := by
  unfold natToIntSigned intToNatMod
  norm_num at h1 h2 ⊢
  split <;> omega

theorem natToIntSigned_intToNatMod_32 (v : Int)
    (h1 : -(2 ^ 31) ≤ v) (h2 : v < 2 ^ 31) :
    natToIntSigned 32 (intToNatMod 32 v) = v := by
  unfold natToIntSigned intToNatMod
  norm_num at h1 h2 ⊢
  split <;> omega

theorem natToIntSigned_intToNatMod_64 (v : Int)
    (h1 : -(2 ^ 63) ≤ v) (h2 : v < 2 ^ 63) :
    natToIntSigned 64 (intToNatMod 64 v) = v := by
  unfold natToIntSigned intToNatMod
  norm_num at h1 h2 ⊢
  split <;> omega

/-- C3: for every `MarshaledTy` type (u8, u16, u32, i8, i16, i32, u64, i64,
bool, char, and the little-endian wrappers) and every value representable in
the type's native range, `from_prim (into_prim v) = some v`. -/
theorem c3_marshaled_roundtrip :
    (∀ v : Nat, v < 2 ^ 8 → u8_from_prim (u8_into_prim v) = some v)
    ∧ (∀ v : Nat, v < 2 ^ 16 → u16_from_prim (u16_into_prim v) = some v)
    ∧ (∀ v : Nat, v < 2 ^ 32 → u32_from_prim (u32_into_prim v) = some v)
    ∧ (∀ v : Nat, v < 2 ^ 64 → u64_from_prim (u64_into_prim v) = some v)
    ∧ (∀ v : Int, -(2 ^ 7) ≤ v → v < 2 ^ 7 →
        i8_from_prim (i8_into_prim v) = some v)
    ∧ (∀ v : Int, -(2 ^ 15) ≤ v → v < 2 ^ 15 →
        i16_from_prim (i16_into_prim v) = some v)
    ∧ (∀ v : Int, -(2 ^ 31) ≤ v → v < 2 ^ 31 →
        i32_from_prim (i32_into_prim v) = some v)
    ∧ (∀ v : Int, -(2 ^ 63) ≤ v → v < 2 ^ 63 →
        i64_from_prim (i64_into_prim v) = some v)
    ∧ (∀ b : Bool, bool_from_prim (bool_into_prim b) = some b)
    ∧ (∀ c : Nat, isUnicodeScalar c →
        char_from_prim (char_into_prim c) = some c)
    ∧ (∀ v : Nat, v < 2 ^ 16 →
        LeU16_from_prim (LeU16_into_prim (LeU16_new v)) = some (LeU16_new v))
    ∧ (∀ v : Nat, v < 2 ^ 32 →
        LeU32_from_prim (LeU32_into_prim (LeU32_new v)) = some (LeU32_new v))
    ∧ (∀ v : Nat, v < 2 ^ 64 →
        LeU64_from_prim (LeU64_into_prim (LeU64_new v)) = some (LeU64_new v))
    ∧ (∀ v : Int, -(2 ^ 15) ≤ v → v < 2 ^ 15 →
        LeI16_from_prim (LeI16_into_prim (LeI16_new v)) = some (LeI16_new v))
    ∧ (∀ v : Int, -(2 ^ 31) ≤ v → v < 2 ^ 31 →
        LeI32_from_prim (LeI32_into_prim (LeI32_new v)) = some (LeI32_new v))
    ∧ (∀ v : Int, -(2 ^ 63) ≤ v → v < 2 ^ 63 →
        LeI64_from_prim (LeI64_into_prim (LeI64_new v)) = some (LeI64_new v)) := by
  refine ⟨?_, ?_, ?_, ?_, ?_, ?_, ?_, ?_, ?_, ?_, ?_, ?_, ?_, ?_, ?_, ?_⟩
  · intro v h
    simp only [u8_into_prim, u8_from_prim]
    rw [if_pos h]
  · intro v h
    simp only [u16_into_prim, u16_from_prim]
    rw [if_pos h]
  · intro v _
    rfl
  · intro v _
    rfl
  · intro v h1 h2
    simp only [i8_into_prim, i8_from_prim]
    rw [if_pos ⟨h1, h2⟩]
  · intro v h1 h2
    simp only [i16_into_prim, i16_from_prim]
    rw [if_pos ⟨h1, h2⟩]
  · intro v _ _
    rfl
  · intro v _ _
    rfl
  · intro b
    cases b <;> rfl
  · intro c h
    simp [char_into_prim, char_from_prim, h]
  · intro v h
    unfold LeU16_from_prim LeU16_into_prim LeU16_get LeU16_new
    unfold u16_into_prim u16_from_prim
    rw [natFromLEBytes_natToLEBytes 2 v (by norm_num at h ⊢; exact h)]
    rw [if_pos h]
    rfl
  · intro v h
    unfold LeU32_from_prim LeU32_into_prim LeU32_get LeU32_new
    unfold u32_into_prim u32_from_prim
    rw [natFromLEBytes_natToLEBytes 4 v (by norm_num at h ⊢; exact h)]
    rfl
  · intro v h
    unfold LeU64_from_prim LeU64_into_prim LeU64_get LeU64_new
    unfold u64_into_prim u64_from_prim
    rw [natFromLEBytes_natToLEBytes 8 v (by norm_num at h ⊢; exact h)]
    rfl
  · intro v h1 h2
    unfold LeI16_from_prim LeI16_into_prim LeI16_get LeI16_new
    unfold i16_into_prim i16_from_prim
    rw [natFromLEBytes_natToLEBytes 2 _
      (by have := intToNatMod_lt_16 v; norm_num at this ⊢; exact this)]
    rw [natToIntSigned_intToNatMod_16 v h1 h2]
    rw [if_pos ⟨h1, h2⟩]
    rfl
  · intro v h1 h2
    unfold LeI32_from_prim LeI32_into_prim LeI32_get LeI32_new
    unfold i32_into_prim i32_from_prim
    rw [natFromLEBytes_natToLEBytes 4 _
      (by have := intToNatMod_lt_32 v; norm_num at this ⊢; exact this)]
    rw [natToIntSigned_intToNatMod_32 v h1 h2]
    rfl
  · intro v h1 h2
    unfold LeI64_from_prim LeI64_into_prim LeI64_get LeI64_new
    unfold i64_into_prim i64_from_prim
    rw [natFromLEBytes_natToLEBytes 8 _
      (by have := intToNatMod_lt_64 v; norm_num at this ⊢; exact this)]
    rw [natToIntSigned_intToNatMod_64 v h1 h2]
    rfl

/-- C3 witness: the round-trip evaluated at one concrete in-range value of
each marshal-able type. -/
theorem c3_marshaled_roundtrip_witness :
    u8_from_prim (u8_into_prim 200) = some 200
    ∧ u16_from_prim (u16_into_prim 40000) = some 40000
    ∧ u32_from_prim (u32_into_prim 4000000000) = some 4000000000
    ∧ u64_from_prim (u64_into_prim (2 ^ 63)) = some (2 ^ 63)
    ∧ i8_from_prim (i8_into_prim (-5)) = some (-5)
    ∧ i16_from_prim (i16_into_prim (-1000)) = some (-1000)
    ∧ i32_from_prim (i32_into_prim (-2000000000)) = some (-2000000000)
    ∧ i64_from_prim (i64_into_prim 42) = some 42
    ∧ bool_from_prim (bool_into_prim true) = some true
    ∧ char_from_prim (char_into_prim 128512) = some 128512
    ∧ LeU16_from_prim (LeU16_into_prim (LeU16_new 513)) = some (LeU16_new 513)
    ∧ LeU32_from_prim (LeU32_into_prim (LeU32_new 305419896)) =
        some (LeU32_new 305419896)
    ∧ LeU64_from_prim (LeU64_into_prim (LeU64_new (2 ^ 40 + 7))) =
        some (LeU64_new (2 ^ 40 + 7))
    ∧ LeI16_from_prim (LeI16_into_prim (LeI16_new (-2))) =
        some (LeI16_new (-2))
    ∧ LeI32_from_prim (LeI32_into_prim (LeI32_new (-70000))) =
        some (LeI32_new (-70000))
    ∧ LeI64_from_prim (LeI64_into_prim (LeI64_new (-(2 ^ 62)))) =
        some (LeI64_new (-(2 ^ 62))) := by
  obtain ⟨h1, h2, h3, h4, h5, h6, h7, h8, h9, h10, h11, h12, h13, h14, h15, h16⟩ :=
    c3_marshaled_roundtrip
  exact ⟨h1 200 (by norm_num), h2 40000 (by norm_num), h3 4000000000 (by norm_num),
    h4 (2 ^ 63) (by norm_num), h5 (-5) (by norm_num) (by norm_num),
    h6 (-1000) (by norm_num) (by norm_num),
    h7 (-2000000000) (by norm_num) (by norm_num),
    h8 42 (by norm_num) (by norm_num), h9 true,
    h10 128512 (by decide),
    h11 513 (by norm_num), h12 305419896 (by norm_num),
    h13 (2 ^ 40 + 7) (by norm_num),
    h14 (-2) (by norm_num) (by norm_num),
    h15 (-70000) (by norm_num) (by norm_num),
    h16 (-(2 ^ 62)) (by norm_num) (by norm_num)⟩

/-- C4: decoding a primitive outside the target domain fails rather than
truncating: `u8::from_prim` rejects every value above 255, `bool` accepts
only 0 and 1, and `char` rejects every non-scalar value. -/
theorem c4_narrowing_rejection :
    (∀ p : Nat, p < 2 ^ 32 → 255 < p → u8_from_prim p = none)
    ∧ bool_from_prim 0 = some false
    ∧ bool_from_prim 1 = some true
    ∧ (∀ p : Nat, 2 ≤ p → bool_from_prim p = none)
    ∧ (∀ p : Nat, p < 2 ^ 32 → ¬ isUnicodeScalar p → char_from_prim p = none) := by
  refine ⟨?_, rfl, rfl, ?_, ?_⟩
  · intro p _ hgt
    unfold u8_from_prim
    rw [if_neg]
    omega
  · intro p hp
    obtain ⟨n, rfl⟩ : ∃ n, p = n + 2 := ⟨p - 2, by omega⟩
    rfl
  · intro p _ hval
    unfold char_from_prim
    simp only [Bool.not_eq_true] at hval
    simp [hval]

/-- C4 witness: 300 is rejected as u8, 2 as bool, the surrogate 0xD800 as
char; 0 and 1 decode as bool. -/
theorem c4_narrowing_rejection_witness :
    u8_from_prim 300 = none
    ∧ bool_from_prim 0 = some false
    ∧ bool_from_prim 1 = some true
    ∧ bool_from_prim 2 = none
    ∧ char_from_prim 55296 = none := by
  obtain ⟨h1, h2, h3, h4, h5⟩ := c4_narrowing_rejection
  exact ⟨h1 300 (by norm_num) (by norm_num), h2, h3, h4 2 (by norm_num),
    h5 55296 (by norm_num) (by decide)⟩

/-- C8: decoding is total for every primitive input: `WasmSlice::from_prim`
returns `Some` for every u64, hence the `.unwrap()` inside
`WasmStr::from_prim` never panics and `WasmStr::from_prim` also returns
`Some` for every u64. -/
theorem c8_decode_total (p : Nat) (h : p < 2 ^ 64) :
    WasmSlice_from_prim p = some ⟨p % 2 ^ 32, p / 2 ^ 32⟩
    ∧ (WasmSlice_from_prim p).isSome
    ∧ (WasmStr_from_prim p).isSome := by
  exact ⟨rfl, rfl, rfl⟩

/-- C8 witness: totality of slice/str decoding at the largest u64. -/
theorem c8_decode_total_witness :
    WasmSlice_from_prim (2 ^ 64 - 1) =
      some ⟨(2 ^ 64 - 1) % 2 ^ 32, (2 ^ 64 - 1) / 2 ^ 32⟩
    ∧ (WasmSlice_from_prim (2 ^ 64 - 1)).isSome
    ∧ (WasmStr_from_prim (2 ^ 64 - 1)).isSome :=
  c8_decode_total (2 ^ 64 - 1) (by norm_num)

theorem from_prims_isSome {α : Type} (decs : List (Option α)) :
    (from_prims decs).isSome ↔ ∀ d ∈ decs, d.isSome := by
  induction decs with
  | nil => simp [from_prims]
  | cons d rest ih =>
    cases d with
    | none => simp [from_prims]
    | some v => simp [from_prims, ih]

theorem from_prims_eq_some {α : Type} (decs : List (Option α)) (vs : List α) :
    from_prims decs = some vs ↔ decs = vs.map some := by
  induction decs generalizing vs with
  | nil => cases vs <;> simp [from_prims]
  | cons d rest ih =>
    cases d with
    | none => cases vs <;> simp [from_prims]
    | some v =>
      cases vs with
      | nil => simp [from_prims]
      | cons w ws =>
        simp [from_prims, ih]
        aesop

theorem from_prims_first_fail {α : Type} (decs : List (Option α)) (k : Nat)
    (hk : decs.get? k = some none)
    (hbefore : ∀ i, i < k → decs.get? i ≠ some none) :
    from_prims decs = none ∧ decode_attempts decs = k + 1 := by
  induction decs generalizing k with
  | nil => simp at hk
  | cons d rest ih =>
    cases k with
    | zero =>
      simp at hk
      subst hk
      exact ⟨rfl, rfl⟩
    | succ k =>
      have hd : d ≠ none := by
        have h0 := hbefore 0 (Nat.succ_pos k)
        simpa using h0
      cases d with
      | none => exact absurd rfl hd
      | some v =>
        have hk2 : rest.get? k = some none := by simpa using hk
        have hb2 : ∀ i, i < k → rest.get? i ≠ some none := by
          intro i hi
          have h1 := hbefore (i + 1) (by omega)
          simpa using h1
        obtain ⟨h1, h2⟩ := ih k hk2 hb2
        refine ⟨by simp [from_prims, h1], ?_⟩
        simp only [decode_attempts, h2]
        omega

/-- C5 (amended): `from_prims` fails exactly when some component's decode
fails, short-circuits at the first failing component (later components are
not decoded, witnessed by the decode-attempt count) and returns a bare
`none` with no position information; on success it yields the components in
order; `into_prims` is always defined, with arity 0 flattening to the empty
tuple. -/
theorem c5_from_prims_contract (α π : Type) (enc : α → π)
    (decs : List (Option α)) :
    ((from_prims decs).isSome ↔ ∀ d ∈ decs, d.isSome)
    ∧ (∀ vs : List α, from_prims decs = some vs ↔ decs = vs.map some)
    ∧ (∀ k : Nat, decs.get? k = some none →
        (∀ i, i < k → decs.get? i ≠ some none) →
        from_prims decs = none ∧ decode_attempts decs = k + 1)
    ∧ from_prims ([] : List (Option α)) = some []
    ∧ into_prims enc ([] : List α) = [] :=
  ⟨from_prims_isSome decs, from_prims_eq_some decs,
    fun k hk hb => from_prims_first_fail decs k hk hb, rfl, rfl⟩

/-- C5 counterexample to the position-reporting part of the claim as stated:
two primitive tuples whose first failing components sit at different
positions produce the very same result `none`, so `from_prims` does not
report the failing component's position. -/
theorem c5_no_position_cex :
    from_prims [none, some 1] = none
    ∧ from_prims [some 1, none] = none
    ∧ firstFailIdx [none, some 1] = some 0
    ∧ firstFailIdx [some 1, none] = some 1
    ∧ from_prims [none, some 1] = from_prims [some 1, none] :=
  ⟨rfl, rfl, rfl, rfl, rfl⟩

/-- C5 witness: the contract evaluated on concrete tuples (arity 3 with a
failure at position 1, arity 2 succeeding, arity 0). -/
theorem c5_from_prims_contract_witness :
    ((from_prims [some 5, none, some 7]).isSome ↔
      ∀ d ∈ [some 5, none, some 7], d.isSome)
    ∧ (from_prims [some 5, none, some 7] = none
        ∧ decode_attempts [some 5, none, some 7] = 1 + 1)
    ∧ (from_prims [some 4, some 6] = some [4, 6] ↔
        [some 4, some 6] = [4, 6].map some)
    ∧ from_prims ([] : List (Option Nat)) = some []
    ∧ into_prims (fun n : Nat => n) ([] : List Nat) = [] := by
  refine ⟨?_, ?_, ?_, ?_, ?_⟩
  · exact (c5_from_prims_contract Nat Nat (fun n => n) [some 5, none, some 7]).1
  · exact (c5_from_prims_contract Nat Nat (fun n => n) [some 5, none, some 7]).2.2.1
      1 rfl (by intro i hi; rw [Nat.lt_one_iff.mp hi]; decide)
  · exact (c5_from_prims_contract Nat Nat (fun n => n) [some 4, some 6]).2.1 [4, 6]
  · exact (c5_from_prims_contract Nat Nat (fun n => n) []).2.2.2.1
  · exact (c5_from_prims_contract Nat Nat (fun n => n) []).2.2.2.2

/-- C2: the host-call adapter decodes each primitive argument; if any
argument fails to decode the call fails with the argument-parsing error and
the wrapped function is never invoked; if all arguments decode, the wrapped
function is invoked, its error is propagated unchanged, and its successful
return tuple is flattened to primitives. -/
theorem c2_wrap_host_contract (α β γ : Type) (decoded : List (Option α))
    (f : List α → Except String (List β)) (enc : β → γ) :
    ((∃ d ∈ decoded, d = none) →
      wrap_host decoded f enc = (Except.error "failed to parse argument", false))
    ∧ (∀ args : List α, decoded = args.map some →
        (∀ e, f args = Except.error e →
          wrap_host decoded f enc = (Except.error e, true))
        ∧ (∀ ret, f args = Except.ok ret →
          wrap_host decoded f enc = (Except.ok (into_prims enc ret), true))) := by
  constructor
  · rintro ⟨d, hd, hdn⟩
    have hnone : from_prims decoded = none := by
      cases hfp : from_prims decoded with
      | none => rfl
      | some vs =>
        have hall : ∀ x ∈ decoded, x.isSome :=
          (from_prims_isSome decoded).mp (by simp [hfp])
        have hds := hall d hd
        rw [hdn] at hds
        simp at hds
    simp [wrap_host, hnone]
  · intro args hargs
    have hfp : from_prims decoded = some args := (from_prims_eq_some _ _).mpr hargs
    constructor
    · intro e he
      simp [wrap_host, hfp, he]
    · intro ret hret
      simp [wrap_host, hfp, hret]

/-- C2 witness: a bad argument tuple never reaches the function; a good one
is passed through, with both the error and the success path observed. -/
theorem c2_wrap_host_contract_witness :
    wrap_host [some 2, none] (fun xs : List Nat => Except.ok xs)
      (fun n : Nat => n) = (Except.error "failed to parse argument", false)
    ∧ wrap_host [some 2, some 3] (fun xs : List Nat => Except.ok xs)
      (fun n : Nat => n) = (Except.ok (into_prims (fun n : Nat => n) [2, 3]), true)
    ∧ wrap_host [some 2, some 3]
      (fun _ : List Nat => (Except.error "boom" : Except String (List Nat)))
      (fun n : Nat => n) = (Except.error "boom", true) := by
  refine ⟨?_, ?_, ?_⟩
  · exact (c2_wrap_host_contract Nat Nat Nat [some 2, none] _ _).1
      ⟨none, by simp, rfl⟩
  · exact ((c2_wrap_host_contract Nat Nat Nat [some 2, some 3] _ _).2
      [2, 3] rfl).2 [2, 3] rfl
  · exact ((c2_wrap_host_contract Nat Nat Nat [some 2, some 3] _ _).2
      [2, 3] rfl).1 "boom" rfl

/-- C6: if the vtable of a dynamic object loads successfully and its
`needs_drop` field is 0, `run_dtor` performs zero guest calls and returns
success; if `needs_drop` is 1 and the `dtor` table index resolves, exactly
one guest call is made, to that index, with arguments `(obj.base, obj.meta)`,
and its unit return is discarded (success is reported as unit). -/
theorem c6_run_dtor_dispatch (mem : List Nat)
    (table : Nat → Option ((Nat × Nat) → Except String Unit))
    (obj : WasmDynamicV) (vt : DtorVtable)
    (hvt : load_dtor_vtable mem obj.meta = some vt) :
    (vt.needs_drop = 0 → run_dtor mem table obj = (Except.ok (), []))
    ∧ (vt.needs_drop = 1 →
        ∀ f, table vt.dtor = some f →
          (run_dtor mem table obj).2 = [(vt.dtor, (obj.base, obj.meta))]
          ∧ (f (obj.base, obj.meta) = Except.ok () →
              run_dtor mem table obj =
                (Except.ok (), [(vt.dtor, (obj.base, obj.meta))]))) := by
  constructor
  · intro h0
    simp [run_dtor, hvt, h0]
  · intro h1 f hf
    constructor
    · cases hcall : f (obj.base, obj.meta) with
      | error e => simp [run_dtor, hvt, h1, hf, hcall]
      | ok u => simp [run_dtor, hvt, h1, hf, hcall]
    · intro hok
      simp [run_dtor, hvt, h1, hf, hok]

/-- C6 witness: a concrete 8-byte vtable with `needs_drop = 1` triggers the
single recorded dtor call; flipping the flag to 0 yields no call. -/
theorem c6_run_dtor_dispatch_witness :
    run_dtor [5, 0, 0, 0, 1, 0, 0, 0]
      (fun i => if i = 5 then some (fun _ => Except.ok ()) else none)
      ⟨16, 0⟩ = (Except.ok (), [(5, (16, 0))])
    ∧ run_dtor [5, 0, 0, 0, 0, 0, 0, 0]
      (fun i => if i = 5 then some (fun _ => Except.ok ()) else none)
      ⟨16, 0⟩ = (Except.ok (), []) := by
  constructor
  · exact ((c6_run_dtor_dispatch [5, 0, 0, 0, 1, 0, 0, 0]
      (fun i => if i = 5 then some (fun _ => Except.ok ()) else none)
      ⟨16, 0⟩ ⟨5, 1⟩ (by rfl)).2 rfl (fun _ => Except.ok ()) (by rfl)).2 rfl
  · exact (c6_run_dtor_dispatch [5, 0, 0, 0, 0, 0, 0, 0]
      (fun i => if i = 5 then some (fun _ => Except.ok ()) else none)
      ⟨16, 0⟩ ⟨5, 0⟩ (by rfl)).1 rfl

theorem splice_length (mem data : List Nat) (base : Nat)
    (h : base + data.length ≤ mem.length) :
    (mem.take base ++ data ++ mem.drop (base + data.length)).length
      = mem.length := by
  simp [List.length_take, List.length_drop]
  omega

theorem flatten_length_uniform (esz : Nat) (es : List (List Nat))
    (h : ∀ b ∈ es, b.length = esz) :
    es.flatten.length = es.length * esz := by
  induction es with
  | nil => simp
  | cons b rest ih =>
    rw [List.flatten_cons, List.length_append, h b (by simp),
      ih (fun x hx => h x (by simp [hx]))]
    simp [List.length_cons]
    ring

theorem chunkBytesGo_flatten (esz : Nat) (hesz : 0 < esz)
    (es : List (List Nat)) (h : ∀ b ∈ es, b.length = esz) :
    ∀ fuel : Nat, es.flatten.length ≤ fuel →
    chunkBytesGo esz fuel es.flatten = es := by
  induction es with
  | nil =>
    intro fuel _
    cases fuel <;> simp [chunkBytesGo]
  | cons b rest ih =>
    intro fuel hfuel
    have hb : b.length = esz := h b (by simp)
    rw [List.flatten_cons] at hfuel ⊢
    have hblen : 0 < (b ++ rest.flatten).length := by
      simp [List.length_append]
      omega
    cases fuel with
    | zero => omega
    | succ fuel =>
      have hne : ¬ (esz = 0 ∨ b ++ rest.flatten = []) := by
        push_neg
        refine ⟨by omega, ?_⟩
        intro hemp
        rw [hemp] at hblen
        simp at hblen
      rw [chunkBytesGo, if_neg hne, List.take_left' hb, List.drop_left' hb,
        ih (fun x hx => h x (by simp [hx])) fuel
          (by simp only [List.length_append, List.length_flatten] at hfuel ⊢; omega)]

theorem chunkBytes_flatten (esz : Nat) (hesz : 0 < esz) (es : List (List Nat))
    (h : ∀ b ∈ es, b.length = esz) :
    chunkBytes esz es.flatten = es :=
  chunkBytesGo_flatten esz hesz es h es.flatten.length (le_refl _)

theorem flatten_drop_uniform (esz : Nat) (i : Nat) :
    ∀ (es : List (List Nat)), (∀ b ∈ es, b.length = esz) → i ≤ es.length →
    es.flatten.drop (i * esz) = (es.drop i).flatten := by
  induction i with
  | zero => intro es _ _; simp
  | succ i ih =>
    intro es h hi
    cases es with
    | nil => simp at hi
    | cons b rest =>
      have hb : b.length = esz := h b (by simp)
      rw [List.flatten_cons]
      have hstep : (i + 1) * esz = b.length + i * esz := by rw [hb]; ring
      rw [hstep, ← List.drop_drop, List.drop_left,
        ih rest (fun x hx => h x (by simp [hx])) (by simpa using hi)]
      simp

theorem flatten_segment (esz : Nat) (hesz : 0 < esz) (es : List (List Nat))
    (h : ∀ b ∈ es, b.length = esz) (i : Nat) (b : List Nat)
    (hib : es.get? i = some b) :
    (es.flatten.drop (i * esz)).take esz = b := by
  have hi : i < es.length := List.get?_eq_some.mp hib |>.1
  rw [flatten_drop_uniform esz i es h (by omega)]
  have hdrop : es.drop i = b :: es.drop (i + 1) := by
    have hget : es.get ⟨i, hi⟩ = b := by
      have := List.get?_eq_get hi
      rw [this] at hib
      exact Option.some.inj hib
    rw [← hget]
    exact List.drop_eq_get_cons hi
  rw [hdrop, List.flatten_cons, List.take_left' (h b (List.get?_mem hib))]

theorem take_splice_eq (mem b : List Nat) (offset : Nat)
    (hoff : offset ≤ mem.length) :
    (mem.take offset ++ b ++ mem.drop (offset + b.length)).take
      (offset + b.length) = mem.take offset ++ b := by
  rw [List.append_assoc, ← List.append_assoc]
  have hlen : (mem.take offset ++ b).length = offset + b.length := by
    simp [List.length_take]
    omega
  exact List.take_left' hlen

theorem drop_splice_eq (mem b : List Nat) (offset k : Nat)
    (hoff : offset ≤ mem.length) :
    (mem.take offset ++ b ++ mem.drop (offset + b.length)).drop
      (offset + b.length + k) = mem.drop (offset + b.length + k) := by
  rw [List.append_assoc, ← List.append_assoc]
  have hlen : (mem.take offset ++ b).length = offset + b.length := by
    simp [List.length_take]
    omega
  have hstep : offset + b.length + k = (mem.take offset ++ b).length + k := by
    omega
  rw [hstep, ← List.drop_drop, List.drop_left, List.drop_drop, hlen]

theorem write_slice_go_split (esz : Nat) (hesz : esz ≤ 2 ^ 32 - 1) (k : Nat) :
    ∀ (es : List (List Nat)) (mem : List Nat) (offset c : Nat),
    (∀ b ∈ es, b.length = esz) → k ≤ es.length →
    offset + k * esz ≤ mem.length →
    offset + k * esz ≤ 2 ^ 32 - 1 →
    write_slice_go mem offset esz es c =
      write_slice_go
        (mem.take offset ++ (es.take k).flatten ++ mem.drop (offset + k * esz))
        (offset + k * esz) esz (es.drop k) (c + k) := by
  induction k with
  | zero =>
    intro es mem offset c _ _ _ _
    simp [List.take_append_drop]
  | succ k ih =>
    intro es mem offset c hlen hk hmem hfit
    have hmul : (k + 1) * esz = k * esz + esz := by ring
    cases es with
    | nil => simp at hk
    | cons b rest =>
      have hb : b.length = esz := hlen b (by simp)
      have hoff : offset ≤ mem.length := by omega
      have hfitb : offset + b.length ≤ mem.length := by
        rw [hb]; omega
      have hwrm : write_range_mut mem offset b =
          some (mem.take offset ++ b ++ mem.drop (offset + b.length)) := by
        unfold write_range_mut
        rw [if_pos ⟨by omega, hfitb⟩]
      have hadd : u32_checked_add offset esz = some (offset + esz) := by
        unfold u32_checked_add
        rw [if_pos (by omega)]
      simp only [write_slice_go, hwrm, hadd]
      set mem2 := mem.take offset ++ b ++ mem.drop (offset + b.length) with hmem2
      have hlen2 : mem2.length = mem.length := splice_length mem b offset hfitb
      rw [ih rest mem2 (offset + esz) (c + 1)
        (fun x hx => hlen x (by simp [hx]))
        (by simpa using hk)
        (by omega)
        (by omega)]
      have e1 : mem2.take (offset + esz) = mem.take offset ++ b := by
        rw [hmem2, ← hb, take_splice_eq mem b offset hoff]
      have e2 : mem2.drop (offset + esz + k * esz) =
          mem.drop (offset + (k + 1) * esz) := by
        have h1 : offset + esz + k * esz = offset + b.length + k * esz := by
          rw [hb]
        rw [hmem2, h1, drop_splice_eq mem b offset (k * esz) hoff]
        congr 1
        rw [hb]
        omega
      rw [e1, e2]
      have e3 : ((b :: rest).take (k + 1)).flatten =
          b ++ (rest.take k).flatten := by
        rw [List.take_succ_cons, List.flatten_cons]
      have e4 : (b :: rest).drop (k + 1) = rest.drop k := List.drop_succ_cons
      rw [e3, e4]
      have e5 : offset + esz + k * esz = offset + (k + 1) * esz := by omega
      have e6 : c + 1 + k = c + (k + 1) := by omega
      rw [e5, e6]
      congr 1
      simp [List.append_assoc]

theorem write_slice_go_ok (esz : Nat) (hesz : esz ≤ 2 ^ 32 - 1)
    (es : List (List Nat)) (mem : List Nat) (offset c : Nat)
    (hlen : ∀ b ∈ es, b.length = esz)
    (hmem : offset + es.length * esz ≤ mem.length)
    (hfit : offset + es.length * esz ≤ 2 ^ 32 - 1) :
    write_slice_go mem offset esz es c =
      (Except.ok (c + es.length),
       mem.take offset ++ es.flatten ++ mem.drop (offset + es.length * esz)) := by
  rw [write_slice_go_split esz hesz es.length es mem offset c hlen
    (le_refl _) hmem hfit]
  rw [List.take_length, List.drop_length]
  rfl

theorem load_range_splice_segment (esz : Nat) (hesz : 0 < esz)
    (mem : List Nat) (base : Nat) (es : List (List Nat))
    (hlen : ∀ b ∈ es, b.length = esz)
    (hmem : base + es.length * esz ≤ mem.length)
    (i : Nat) (b : List Nat) (hib : es.get? i = some b) :
    load_range (mem.take base ++ es.flatten ++ mem.drop (base + es.length * esz))
      (base + i * esz) esz = some b := by
  have hi : i < es.length := (List.get?_eq_some.mp hib).1
  have hflat : es.flatten.length = es.length * esz :=
    flatten_length_uniform esz es hlen
  have hmul : (i + 1) * esz ≤ es.length * esz :=
    Nat.mul_le_mul_right esz (by omega)
  have hstep : (i + 1) * esz = i * esz + esz := by ring
  have hbase : base ≤ mem.length := by
    have := Nat.le_add_right base (es.length * esz)
    omega
  set mem2 :=
    mem.take base ++ es.flatten ++ mem.drop (base + es.length * esz) with hm2
  have hlen2 : mem2.length = mem.length := by
    rw [hm2]
    have h1 : base + es.length * esz = base + es.flatten.length := by rw [hflat]
    rw [h1]
    exact splice_length mem es.flatten base (by rw [hflat]; exact hmem)
  rw [load_range_eq_some mem2 (base + i * esz) esz (by omega)]
  have hto : (mem.take base).length = base := by
    simp [List.length_take]
    omega
  have hd1 : mem2.drop (base + i * esz) =
      (es.flatten ++ mem.drop (base + es.length * esz)).drop (i * esz) := by
    rw [hm2, List.append_assoc]
    rw [show base + i * esz = (mem.take base).length + i * esz by rw [hto]]
    rw [← List.drop_drop, List.drop_left]
  have hd2 : (es.flatten ++ mem.drop (base + es.length * esz)).drop (i * esz)
      = es.flatten.drop (i * esz) ++ mem.drop (base + es.length * esz) :=
    List.drop_append_of_le_length (by rw [hflat]; omega)
  rw [hd1, hd2]
  rw [List.take_append_of_le_length (by simp [hflat]; omega)]
  rw [flatten_segment esz hesz es hlen i b hib]

theorem drop_eq_cons_of_get {α : Type} (es : List α) (k : Nat) (b : α)
    (h : es.get? k = some b) : es.drop k = b :: es.drop (k + 1) := by
  have hk : k < es.length := (List.get?_eq_some.mp h).1
  have hget : es.get ⟨k, hk⟩ = b := by
    have h2 := List.get?_eq_get hk
    rw [h2] at h
    exact Option.some.inj h
  rw [← hget]
  exact List.drop_eq_get_cons hk

theorem take_flatten_length (esz k : Nat) (es : List (List Nat))
    (hlen : ∀ b ∈ es, b.length = esz) (hk : k ≤ es.length) :
    ((es.take k).flatten).length = k * esz := by
  rw [flatten_length_uniform esz _ (fun x hx => hlen x (List.take_subset k es hx))]
  congr 1
  simp [List.length_take]
  omega

theorem write_slice_go_fail_oob (esz : Nat) (hesz : esz ≤ 2 ^ 32 - 1)
    (k : Nat) (es : List (List Nat)) (mem : List Nat) (offset c : Nat)
    (hlen : ∀ b ∈ es, b.length = esz)
    (hk : k < es.length)
    (hmem : offset + k * esz ≤ mem.length)
    (hfit : offset + k * esz ≤ 2 ^ 32 - 1)
    (hfail : mem.length < offset + k * esz + esz) :
    write_slice_go mem offset esz es c =
      (Except.error "failed to read memory range",
       mem.take offset ++ (es.take k).flatten
         ++ mem.drop (offset + k * esz)) := by
  rw [write_slice_go_split esz hesz k es mem offset c hlen (le_of_lt hk)
    hmem hfit]
  obtain ⟨b, hib⟩ : ∃ b, es.get? k = some b := by
    cases hg : es.get? k with
    | none =>
      rw [List.get?_eq_none] at hg
      omega
    | some x => exact ⟨x, rfl⟩
  rw [drop_eq_cons_of_get es k b hib]
  set F := (es.take k).flatten with hF
  have hFlen : F.length = k * esz := take_flatten_length esz k es hlen (le_of_lt hk)
  set mem3 := mem.take offset ++ F ++ mem.drop (offset + k * esz) with hm3
  have hlen3 : mem3.length = mem.length := by
    rw [hm3, show offset + k * esz = offset + F.length by rw [hFlen]]
    exact splice_length mem F offset (by rw [hFlen]; exact hmem)
  have hbl : b.length = esz := hlen b (List.get?_mem hib)
  have hneg : ¬ (b.length ≤ 2 ^ 32 - 1
      ∧ offset + k * esz + b.length ≤ mem3.length) := by
    rw [hbl, hlen3]
    omega
  have hwfail : write_range_mut mem3 (offset + k * esz) b = none := by
    unfold write_range_mut
    rw [if_neg hneg]
  simp only [write_slice_go, hwfail]

theorem write_slice_go_fail_overflow (esz : Nat) (hesz : esz ≤ 2 ^ 32 - 1)
    (j : Nat) (es : List (List Nat)) (mem : List Nat) (offset c : Nat)
    (hlen : ∀ b ∈ es, b.length = esz)
    (hj : j < es.length)
    (hmem : offset + (j + 1) * esz ≤ mem.length)
    (hfit : offset + j * esz ≤ 2 ^ 32 - 1)
    (hovf : 2 ^ 32 - 1 < offset + (j + 1) * esz) :
    write_slice_go mem offset esz es c =
      (Except.error "wrote too many elements into memory",
       mem.take offset ++ (es.take (j + 1)).flatten
         ++ mem.drop (offset + (j + 1) * esz)) := by
  have hstep : (j + 1) * esz = j * esz + esz := by ring
  rw [write_slice_go_split esz hesz j es mem offset c hlen (le_of_lt hj)
    (by omega) hfit]
  obtain ⟨b, hib⟩ : ∃ b, es.get? j = some b := by
    cases hg : es.get? j with
    | none =>
      rw [List.get?_eq_none] at hg
      omega
    | some x => exact ⟨x, rfl⟩
  rw [drop_eq_cons_of_get es j b hib]
  set F := (es.take j).flatten with hF
  have hFlen : F.length = j * esz := take_flatten_length esz j es hlen (le_of_lt hj)
  set mem3 := mem.take offset ++ F ++ mem.drop (offset + j * esz) with hm3
  have hlen3 : mem3.length = mem.length := by
    rw [hm3, show offset + j * esz = offset + F.length by rw [hFlen]]
    exact splice_length mem F offset (by rw [hFlen]; omega)
  have hbl : b.length = esz := hlen b (List.get?_mem hib)
  have hw : write_range_mut mem3 (offset + j * esz) b =
      some (mem3.take (offset + j * esz) ++ b
        ++ mem3.drop (offset + j * esz + b.length)) := by
    unfold write_range_mut
    rw [if_pos ⟨by rw [hbl]; omega, by rw [hbl, hlen3]; omega⟩]
  have hadd : u32_checked_add (offset + j * esz) esz = none := by
    unfold u32_checked_add
    rw [if_neg (by omega)]
  simp only [write_slice_go, hw, hadd]
  have e1 : mem3.take (offset + j * esz) = mem.take offset ++ F := by
    rw [hm3, show offset + j * esz = offset + F.length by rw [hFlen]]
    exact take_splice_eq mem F offset (by omega)
  have e2 : mem3.drop (offset + j * esz + b.length) =
      mem.drop (offset + (j + 1) * esz) := by
    rw [hm3, hbl, show offset + j * esz = offset + F.length by rw [hFlen]]
    rw [drop_splice_eq mem F offset esz (by omega)]
    congr 1
    rw [hFlen]
    omega
  rw [e1, e2]
  have hib2 : es[j]? = some b := by
    rw [← List.get?_eq_getElem?]
    exact hib
  have e3 : (es.take (j + 1)).flatten = F ++ b := by
    rw [List.take_succ, hib2, List.flatten_append, hF]
    simp
  rw [e3]
  simp [List.append_assoc]

/-- C7: `load_slice_raw` computes the byte length as `len * size_of(T)` with
a checked 32-bit multiplication: whenever the product exceeds `u32::MAX` the
call fails with the "slice is too big" error, and any successful call has
validated the full, exact product against the current memory length — the
computation never wraps to a smaller aliased range. -/
theorem c7_load_slice_checked_mul {α : Type} (mem : List Nat)
    (base len esz : Nat) (dec : List Nat → α) :
    (2 ^ 32 - 1 < len * esz →
      load_slice_raw mem base len esz dec = Except.error "slice is too big")
    ∧ (∀ out, load_slice_raw mem base len esz dec = Except.ok out →
        len * esz ≤ 2 ^ 32 - 1 ∧ base + len * esz ≤ mem.length) := by
  constructor
  · intro hovf
    unfold load_slice_raw u32_checked_mul
    rw [if_neg (by omega)]
  · intro out hok
    unfold load_slice_raw at hok
    split at hok
    · simp at hok
    · rename_i byteLen hcm
      have hbl : byteLen = len * esz ∧ len * esz ≤ 2 ^ 32 - 1 := by
        unfold u32_checked_mul at hcm
        by_cases h : len * esz ≤ 2 ^ 32 - 1
        · rw [if_pos h] at hcm
          exact ⟨(Option.some.inj hcm).symm, h⟩
        · rw [if_neg h] at hcm
          simp at hcm
      obtain ⟨hbleq, hle⟩ := hbl
      subst hbleq
      split at hok
      · simp at hok
      · rename_i bytes hlr
        refine ⟨hle, ?_⟩
        have hs := load_range_isSome mem base (len * esz)
        rw [hlr] at hs
        exact hs.mp rfl

/-- C7 witness: a 2^31-element slice of 4-byte values overflows the 32-bit
byte length and fails; a successful 1-element load has its exact byte range
in bounds. -/
theorem c7_load_slice_checked_mul_witness :
    load_slice_raw ([] : List Nat) 0 (2 ^ 31) 4 natFromLEBytes =
      Except.error "slice is too big"
    ∧ (1 * 4 ≤ 2 ^ 32 - 1 ∧ 0 + 1 * 4 ≤ ([1, 2, 3, 4] : List Nat).length) := by
  constructor
  · exact (c7_load_slice_checked_mul [] 0 (2 ^ 31) 4 natFromLEBytes).1
      (by norm_num)
  · exact (c7_load_slice_checked_mul [1, 2, 3, 4] 0 1 4 natFromLEBytes).2
      [natFromLEBytes [1, 2, 3, 4]] rfl

/-- C10: `write_slice` writes elements one at a time and is not atomic on
failure: on success the returned count is the number of elements; if the
element at position k cannot be written because its range is out of bounds,
or because the write cursor cannot advance to position k without
overflowing u32, then the call fails after every element before k has been
copied into guest memory, where it remains readable. -/
theorem c10_write_slice_nonatomic (esz : Nat) (es : List (List Nat))
    (mem : List Nat) (base : Nat)
    (hlen : ∀ b ∈ es, b.length = esz)
    (hesz0 : 0 < esz) (hesz : esz ≤ 2 ^ 32 - 1) :
    (base + es.length * esz ≤ mem.length →
      base + es.length * esz ≤ 2 ^ 32 - 1 →
      ∃ mem2, write_slice mem base esz es = (Except.ok es.length, mem2)
        ∧ ∀ i b, es.get? i = some b →
            load_range mem2 (base + i * esz) esz = some b)
    ∧ (∀ k, k < es.length → base + k * esz ≤ mem.length →
        base + k * esz ≤ 2 ^ 32 - 1 → mem.length < base + k * esz + esz →
        ∃ mem2, write_slice mem base esz es =
            (Except.error "failed to read memory range", mem2)
          ∧ ∀ i b, i < k → es.get? i = some b →
              load_range mem2 (base + i * esz) esz = some b)
    ∧ (∀ k, 0 < k → k ≤ es.length → base + k * esz ≤ mem.length →
        base + (k - 1) * esz ≤ 2 ^ 32 - 1 → 2 ^ 32 - 1 < base + k * esz →
        ∃ mem2, write_slice mem base esz es =
            (Except.error "wrote too many elements into memory", mem2)
          ∧ ∀ i b, i < k → es.get? i = some b →
              load_range mem2 (base + i * esz) esz = some b) := by
  refine ⟨?_, ?_, ?_⟩
  · intro hmem hfit
    refine ⟨mem.take base ++ es.flatten ++ mem.drop (base + es.length * esz),
      ?_, ?_⟩
    · unfold write_slice
      rw [write_slice_go_ok esz hesz es mem base 0 hlen hmem hfit,
        Nat.zero_add]
    · intro i b hib
      exact load_range_splice_segment esz hesz0 mem base es hlen hmem i b hib
  · intro k hk hmem hfit hfail
    refine ⟨mem.take base ++ (es.take k).flatten ++ mem.drop (base + k * esz),
      ?_, ?_⟩
    · unfold write_slice
      exact write_slice_go_fail_oob esz hesz k es mem base 0 hlen hk hmem
        hfit hfail
    · intro i b hi hib
      have htk : (es.take k).length = k := by
        simp [List.length_take]
        omega
      have h1 : (es.take k).get? i = some b := by
        rw [List.get?_take hi]
        exact hib
      have h2 : base + (es.take k).length * esz ≤ mem.length := by
        rw [htk]
        exact hmem
      have hseg := load_range_splice_segment esz hesz0 mem base (es.take k)
        (fun x hx => hlen x (List.take_subset k es hx)) h2 i b h1
      rw [htk] at hseg
      exact hseg
  · intro k hk0 hkle hmem hfitprev hovf
    obtain ⟨j, rfl⟩ : ∃ j, k = j + 1 := ⟨k - 1, by omega⟩
    have hfitj : base + j * esz ≤ 2 ^ 32 - 1 := by
      simpa using hfitprev
    refine ⟨mem.take base ++ (es.take (j + 1)).flatten
        ++ mem.drop (base + (j + 1) * esz), ?_, ?_⟩
    · unfold write_slice
      exact write_slice_go_fail_overflow esz hesz j es mem base 0 hlen
        (by omega) hmem hfitj hovf
    · intro i b hi hib
      have htk : (es.take (j + 1)).length = j + 1 := by
        simp [List.length_take]
        omega
      have h1 : (es.take (j + 1)).get? i = some b := by
        rw [List.get?_take hi]
        exact hib
      have h2 : base + (es.take (j + 1)).length * esz ≤ mem.length := by
        rw [htk]
        exact hmem
      have hseg := load_range_splice_segment esz hesz0 mem base (es.take (j + 1))
        (fun x hx => hlen x (List.take_subset (j + 1) es hx)) h2 i b h1
      rw [htk] at hseg
      exact hseg

/-- C10 witness: writing [[1,2],[3,4],[5,6]] of 2-byte elements into an
8-byte memory at base 1 succeeds with count 3; into a 5-byte memory the
third element is out of bounds, yet the first two remain readable. -/
theorem c10_write_slice_nonatomic_witness :
    (∃ mem2, write_slice [0, 0, 0, 0, 0, 0, 0, 0] 1 2 [[1, 2], [3, 4], [5, 6]]
        = (Except.ok ([[1, 2], [3, 4], [5, 6]] : List (List Nat)).length, mem2)
      ∧ ∀ i b, ([[1, 2], [3, 4], [5, 6]] : List (List Nat)).get? i = some b →
          load_range mem2 (1 + i * 2) 2 = some b)
    ∧ (∃ mem2, write_slice [0, 0, 0, 0, 0] 1 2 [[1, 2], [3, 4], [5, 6]]
        = (Except.error "failed to read memory range", mem2)
      ∧ ∀ i b, i < 2 → ([[1, 2], [3, 4], [5, 6]] : List (List Nat)).get? i = some b →
          load_range mem2 (1 + i * 2) 2 = some b) := by
  constructor
  · exact (c10_write_slice_nonatomic 2 [[1, 2], [3, 4], [5, 6]]
      [0, 0, 0, 0, 0, 0, 0, 0] 1 (by intro b hb; fin_cases hb <;> rfl)
      (by norm_num) (by norm_num)).1 (by norm_num) (by norm_num)
  · exact (c10_write_slice_nonatomic 2 [[1, 2], [3, 4], [5, 6]]
      [0, 0, 0, 0, 0] 1 (by intro b hb; fin_cases hb <;> rfl)
      (by norm_num) (by norm_num)).2.1 2 (by norm_num) (by norm_num)
      (by norm_num) (by norm_num)

theorem map_dec_enc {α : Type} (dec : List Nat → α) (enc : α → List Nat)
    (values : List α) (h : ∀ a ∈ values, dec (enc a) = a) :
    (values.map enc).map dec = values := by
  induction values with
  | nil => rfl
  | cons a rest ih =>
    simp only [List.map_cons, h a (by simp),
      ih (fun x hx => h x (by simp [hx]))]

theorem load_range_splice_all (mem F : List Nat) (base : Nat)
    (hb : base + F.length ≤ mem.length) :
    load_range (mem.take base ++ F ++ mem.drop (base + F.length)) base
      F.length = some F := by
  have hto : (mem.take base).length = base := by
    simp [List.length_take]
    omega
  have hlen2 : (mem.take base ++ F ++ mem.drop (base + F.length)).length
      = mem.length := splice_length mem F base hb
  rw [load_range_eq_some _ base F.length (by omega)]
  rw [List.append_assoc]
  have h1 : (mem.take base ++ (F ++ mem.drop (base + F.length))).drop base
      = F ++ mem.drop (base + F.length) := List.drop_left' hto
  rw [h1, List.take_left]

/-- C9 counterexample: allocation succeeding and the allocated region being
in bounds do not suffice for the round-trip.  On a 2^32-byte memory, a
1-element slice of 4-byte values allocated at base `2^32 - 4` — allocation
succeeds and `base + 1 * 4 = 2^32` is within the memory — still fails:
`write_slice` advances its cursor with `checked_add` after every element,
the last included, and `2^32 - 4 + 4` does not fit in u32, so `alloc_slice`
returns the cursor-overflow error instead of a `WasmSlice`. -/
theorem alloc_slice_write_error {α : Type} (mem : List Nat)
    (allocFn : Nat → Nat → Except String Nat) (esz align : Nat)
    (enc : α → List Nat) (values : List α) (size base : Nat) (e : String)
    (mem2 : List Nat)
    (hn : values.length ≤ 2 ^ 32 - 1)
    (hcm : u32_checked_mul esz values.length = some size)
    (halloc : allocFn size align = Except.ok base)
    (hw : write_slice mem base esz (values.map enc) =
      (Except.error e, mem2)) :
    alloc_slice mem allocFn esz align enc values = (Except.error e, true) := by
  simp only [alloc_slice, if_pos hn, hcm, halloc, hw]

theorem c9_alloc_slice_boundary_cex :
    ((2 ^ 32 - 4) + 1 * 4 ≤ (List.replicate (2 ^ 32) (0 : Nat)).length)
    ∧ alloc_slice (List.replicate (2 ^ 32) (0 : Nat))
        (fun _ _ => Except.ok (2 ^ 32 - 4)) 4 4 (natToLEBytes 4) [7]
        = (Except.error "wrote too many elements into memory", true) := by
  constructor
  · rw [List.length_replicate]
    omega
  · have hwrite : write_slice (List.replicate (2 ^ 32) (0 : Nat)) (2 ^ 32 - 4)
        4 (List.map (natToLEBytes 4) [7]) =
        (Except.error "wrote too many elements into memory",
         (List.replicate (2 ^ 32) (0 : Nat)).take (2 ^ 32 - 4)
           ++ ((List.map (natToLEBytes 4) [7]).take (0 + 1)).flatten
           ++ (List.replicate (2 ^ 32) (0 : Nat)).drop
                (2 ^ 32 - 4 + (0 + 1) * 4)) := by
      unfold write_slice
      exact write_slice_go_fail_overflow 4 (by norm_num) 0
        (List.map (natToLEBytes 4) [7]) (List.replicate (2 ^ 32) (0 : Nat))
        (2 ^ 32 - 4) 0
        (by intro b hb; fin_cases hb; exact natToLEBytes_length 4 7)
        (by simp)
        (by rw [List.length_replicate]; norm_num)
        (by norm_num)
        (by norm_num)
    exact alloc_slice_write_error (List.replicate (2 ^ 32) (0 : Nat))
      (fun _ _ => Except.ok (2 ^ 32 - 4)) 4 4 (natToLEBytes 4) [7] 4
      (2 ^ 32 - 4) "wrote too many elements into memory" _
      (by norm_num) rfl rfl hwrite

/-- C9 (amended): for a list of elements whose allocation succeeds, whose
allocated region lies in bounds, and whose region end
`base + len * size_of(T)` also fits in u32, `alloc_slice` writes all
elements in order and returns a `WasmSlice` from which `load_slice` over the
same (un-grown) memory yields exactly the original elements in order; and
the size passed to the allocator is a checked 32-bit multiplication that
fails, before the allocator is ever invoked, when `len * size_of(T)`
overflows u32.  (The region-end condition is forced by the final cursor
`checked_add` of `write_slice`, see the boundary counterexample.) -/
theorem c9_alloc_slice_roundtrip {α : Type} (mem : List Nat)
    (allocFn : Nat → Nat → Except String Nat) (esz align : Nat)
    (enc : α → List Nat) (dec : List Nat → α) (values : List α) (base : Nat)
    (hesz0 : 0 < esz) (hesz : esz ≤ 2 ^ 32 - 1)
    (henclen : ∀ a ∈ values, (enc a).length = esz)
    (hdec : ∀ a ∈ values, dec (enc a) = a)
    (hn : values.length ≤ 2 ^ 32 - 1)
    (hsize : esz * values.length ≤ 2 ^ 32 - 1)
    (halloc : allocFn (esz * values.length) align = Except.ok base)
    (hbounds : base + values.length * esz ≤ mem.length)
    (hfit : base + values.length * esz ≤ 2 ^ 32 - 1) :
    (∃ mem2,
      alloc_slice mem allocFn esz align enc values =
        (Except.ok (⟨base, values.length⟩, mem2), true)
      ∧ load_slice_raw mem2 base values.length esz dec = Except.ok values)
    ∧ (∀ (allocFn2 : Nat → Nat → Except String Nat) (values2 : List α),
        values2.length ≤ 2 ^ 32 - 1 → 2 ^ 32 - 1 < esz * values2.length →
        alloc_slice mem allocFn2 esz align enc values2 =
          (Except.error "slice is too big", false)) := by
  constructor
  · have hcm : u32_checked_mul esz values.length
        = some (esz * values.length) := by
      unfold u32_checked_mul
      rw [if_pos hsize]
    have hlenmap : ∀ b ∈ values.map enc, b.length = esz := by
      intro b hb
      obtain ⟨a, ha, rfl⟩ := List.mem_map.mp hb
      exact henclen a ha
    have hmaplen : (values.map enc).length = values.length :=
      List.length_map values enc
    have hwrite : write_slice mem base esz (values.map enc) =
        (Except.ok (values.map enc).length,
         mem.take base ++ (values.map enc).flatten
           ++ mem.drop (base + (values.map enc).length * esz)) := by
      unfold write_slice
      rw [write_slice_go_ok esz hesz (values.map enc) mem base 0 hlenmap
        (by rw [hmaplen]; exact hbounds) (by rw [hmaplen]; exact hfit),
        Nat.zero_add]
    have hflatlen : ((values.map enc).flatten).length
        = values.length * esz := by
      rw [flatten_length_uniform esz _ hlenmap, hmaplen]
    refine ⟨mem.take base ++ (values.map enc).flatten
      ++ mem.drop (base + (values.map enc).length * esz), ?_, ?_⟩
    · simp only [alloc_slice, if_pos hn, hcm, halloc, hwrite]
    · unfold load_slice_raw
      have hcm2 : u32_checked_mul values.length esz
          = some (values.length * esz) := by
        unfold u32_checked_mul
        rw [if_pos (by rw [Nat.mul_comm]; exact hsize)]
      have hload : load_range
          (mem.take base ++ (values.map enc).flatten
            ++ mem.drop (base + (values.map enc).length * esz)) base
          (values.length * esz) = some ((values.map enc).flatten) := by
        have h0 := load_range_splice_all mem ((values.map enc).flatten) base
          (by rw [hflatlen]; exact hbounds)
        rw [hflatlen] at h0
        rw [hmaplen]
        exact h0
      simp only [hcm2, hload]
      rw [chunkBytes_flatten esz hesz0 _ hlenmap,
        map_dec_enc dec enc values hdec]
  · intro allocFn2 values2 hn2 hovf2
    unfold alloc_slice
    rw [if_pos hn2]
    have hcmbad : u32_checked_mul esz values2.length = none := by
      unfold u32_checked_mul
      rw [if_neg (by omega)]
    rw [hcmbad]

/-- C9 witness: a 3-element u32 slice [10, 20, 30] allocated at base 4 of a
20-byte memory reads back as [10, 20, 30]; a slice whose byte size overflows
u32 is rejected before allocation for every allocator. -/
theorem c9_alloc_slice_roundtrip_witness :
    (∃ mem2,
      alloc_slice (List.replicate 20 0) (fun _ _ => Except.ok 4) 4 4
        (natToLEBytes 4) [10, 20, 30] =
        (Except.ok (⟨4, ([10, 20, 30] : List Nat).length⟩, mem2), true)
      ∧ load_slice_raw mem2 4 ([10, 20, 30] : List Nat).length 4
          natFromLEBytes = Except.ok [10, 20, 30])
    ∧ (∀ (allocFn2 : Nat → Nat → Except String Nat) (values2 : List Nat),
        values2.length ≤ 2 ^ 32 - 1 → 2 ^ 32 - 1 < 4 * values2.length →
        alloc_slice (List.replicate 20 0) allocFn2 4 4 (natToLEBytes 4)
          values2 = (Except.error "slice is too big", false)) :=
  c9_alloc_slice_roundtrip (List.replicate 20 0) (fun _ _ => Except.ok 4) 4 4
    (natToLEBytes 4) natFromLEBytes [10, 20, 30] 4
    (by norm_num) (by norm_num)
    (fun a _ => natToLEBytes_length 4 a)
    (by intro a ha; fin_cases ha <;> rfl)
    (by norm_num) (by norm_num) rfl
    (by norm_num [List.length_replicate])
    (by norm_num)
